import Mathlib

/-!
Verification of `nilmtk/datastore.py`: the windowed, chunked, look-ahead
read path (`HDFDataStore.load`), the handle lifecycle (`open`/`close`), the
memory estimator and guard, the path joiner `join_key`, and the `Key`
location type.

Timestamps are modelled as `Int`.  An HDF table is a list of rows in
on-disk order, each row carrying its index and an opaque payload `α`
(column selection transforms payloads only and never touches indices, so
the payload is kept whole).  `nilmtk.timeframe.TimeFrame` is imported by
the source but its module is not among the sources; it is modelled from
the spec below.
-/

/-- Modelled from the spec: `nilmtk.timeframe.TimeFrame` (module missing from
the sources).  A half-open time interval `[start, stop)`: a `none` bound is
unbounded, and `empt` is the empty interval (what a degenerate intersection
produces).  The source's no-argument `TimeFrame()` is `blank` below: both
bounds absent, which per the spec acts as the single unbounded default
period, hence is distinct from the empty interval. -/
inductive TimeFrame where
  | tf (start stop : Option Int) : TimeFrame
  | empt : TimeFrame
deriving DecidableEq

/-- The no-argument `TimeFrame()`: no bounds. -/
def TimeFrame.blank : TimeFrame := .tf none none

/-- Later of two start bounds; `none` is the unbounded past. -/
def startMax : Option Int → Option Int → Option Int
  | none, b => b
  | a, none => a
  | some a, some b => some (max a b)

/-- Earlier of two stop bounds; `none` is the unbounded future. -/
def stopMin : Option Int → Option Int → Option Int
  | none, b => b
  | a, none => a
  | some a, some b => some (min a b)

/-- Modelled from the spec: intersection of half-open intervals; a crossed
or degenerate pair of bounds gives the empty interval. -/
def TimeFrame.intersect : TimeFrame → TimeFrame → TimeFrame
  | .empt, _ => .empt
  | _, .empt => .empt
  | .tf s1 e1, .tf s2 e2 =>
    match startMax s1 s2, stopMin e1 e2 with
    | some a, some b => if b ≤ a then .empt else .tf (some a) (some b)
    | s, e => .tf s e

/-- The `empty` test on a timeframe (`window_intersect.empty` in the source). -/
def TimeFrame.isEmpty : TimeFrame → Bool
  | .empt => true
  | .tf _ _ => false

/-- Modelled from the spec: whether instant `t` lies in the half-open
interval.  `query_terms` filtering in the source selects exactly the rows
whose index satisfies this. -/
def TimeFrame.contains : TimeFrame → Int → Bool
  | .empt, _ => false
  | .tf s e, t =>
    (match s with | none => true | some a => decide (a ≤ t)) &&
    (match e with | none => true | some b => decide (t < b))

instance {ε α : Type} [DecidableEq ε] [DecidableEq α] :
    DecidableEq (Except ε α) := fun x y =>
  match x, y with
  | .ok a, .ok b =>
    if h : a = b then .isTrue (h ▸ rfl) else .isFalse (fun he => h (Except.ok.inj he))
  | .error a, .error b =>
    if h : a = b then .isTrue (h ▸ rfl) else .isFalse (fun he => h (Except.error.inj he))
  | .ok _, .error _ => .isFalse (fun he => Except.noConfusion he)
  | .error _, .ok _ => .isFalse (fun he => Except.noConfusion he)

/-- One table row: its timestamp index and an opaque payload. -/
abbrev Row (α : Type) := Int × α

/-- A chunk yielded by `load`: the rows, plus the two attributes the source
attaches to the DataFrame (`look_ahead` and `timeframe`). -/
structure Chunk (α : Type) where
  rows : List (Row α)
  look_ahead : List (Row α)
  timeframe : TimeFrame
deriving DecidableEq

/-- Groups of `k` consecutive elements (last group smaller), as the chunked
`pd.HDFStore.select` yields the selected rows.  `fuel` only forces
termination; `fuel = l.length` always suffices when `0 < k`. -/
def chunksOfAux (k : Nat) : Nat → List β → List (List β)
  | _, [] => []
  | 0, l => [l]
  | fuel+1, l => l.take k :: chunksOfAux k fuel (l.drop k)

/-- Split a list into consecutive groups of at most `k` elements. -/
def chunksOf (k : Nat) (l : List β) : List (List β) :=
  chunksOfAux k l.length l

/-- Positions (coordinates) of the table rows whose index lies strictly
after `lastIdx`, in on-disk order: models
`store.select_as_coordinates(key, "index>data.index[-1]")`. -/
def lookAheadCoords (table : List (Row α)) (lastIdx : Int) : List Nat :=
  (table.enum.filter (fun pr => decide (lastIdx < pr.2.1))).map Prod.fst

/-- Look-ahead buffer attached to one yielded group: empty when the group
is empty or no on-disk row follows it; otherwise the first group (at most
`n` rows) of a positional `select` starting at the first coordinate after
the group's last index. -/
def lookAheadFor (table : List (Row α)) (n : Nat) (data : List (Row α)) :
    List (Row α) :=
  match data.getLast? with
  | none => []
  | some last =>
    match (lookAheadCoords table last.1).head? with
    | none => []
    | some p => (table.drop p).take n

/-- The `timeframe` attribute the source attaches to a group:
`TimeFrame(data.index[0], data.index[-1])` when the group is non-empty,
the no-argument `TimeFrame()` otherwise. -/
def chunkTimeframe (data : List (Row α)) : TimeFrame :=
  match data.head?, data.getLast? with
  | some a, some b => .tf (some a.1) (some b.1)
  | _, _ => TimeFrame.blank

/-- Body of the `for data in generator` loop of `HDFDataStore.load`:
attach `look_ahead` and `timeframe` to a group of rows. -/
def enrich (table : List (Row α)) (n : Nat) (data : List (Row α)) : Chunk α :=
  { rows := data
    look_ahead := lookAheadFor table n data
    timeframe := chunkTimeframe data }

/-- One iteration of the `for period in periods` loop of
`HDFDataStore.load`: an empty intersection with the window yields the one
enriched empty DataFrame (`repeat(pd.DataFrame(), 1)`); otherwise the rows
inside the intersection are read in groups of `chunksize` and enriched. -/
def loadPeriod (window : TimeFrame) (table : List (Row α)) (n chunksize : Nat)
    (period : TimeFrame) : List (Chunk α) :=
  let wi := window.intersect period
  if wi.isEmpty then [enrich table n []]
  else
    (chunksOf chunksize (table.filter (fun r => wi.contains r.1))).map
      (enrich table n)

/-- `HDFDataStore.load`: the yielded chunks, in order.  Absent `periods`
defaults to the single no-argument `TimeFrame()`.  The key-normalisation
lines of the source select the table and do not affect the rows, so the
table is passed directly. -/
def load (window : TimeFrame) (table : List (Row α)) (n chunksize : Nat)
    (periods : Option (List TimeFrame)) : List (Chunk α) :=
  (periods.getD [TimeFrame.blank]).flatMap (loadPeriod window table n chunksize)

/-- State of an `HDFDataStore`: whether the underlying `pd.HDFStore` handle
is open, and the window. -/
structure HDFDataStoreState where
  storeOpen : Bool
  window : TimeFrame
deriving DecidableEq

/-- `HDFDataStore.close`: `self.store.close()`. -/
def HDFDataStoreState.closeStore (s : HDFDataStoreState) : HDFDataStoreState :=
  { s with storeOpen := false }

/-- `HDFDataStore.open`: the source's body is `self.store.close()`. -/
def HDFDataStoreState.openStore (s : HDFDataStoreState) : HDFDataStoreState :=
  { s with storeOpen := false }

/-- `MAX_MEM_ALLOWANCE_IN_BYTES = 1E9`. -/
def MAX_MEM_ALLOWANCE_IN_BYTES : Nat := 10 ^ 9

/-- `HDFDataStore._estimate_memory_requirement`: `tableCols` is the
table's column list (used when `cols` is absent). -/
def estimate_memory_requirement (tableCols : List String) (nrows : Nat)
    (cols : Option (List String)) : Nat :=
  let BYTES_PER_ELEMENT := 4
  let BYTES_PER_TIMESTAMP := 8
  let cols := cols.getD tableCols
  let ncols := cols.length
  let est_mem_usage_for_data := nrows * ncols * BYTES_PER_ELEMENT
  let est_mem_usage_for_index := nrows * BYTES_PER_TIMESTAMP
  if cols = ["index"] then est_mem_usage_for_index
  else est_mem_usage_for_data + est_mem_usage_for_index

/-- `HDFDataStore._check_data_will_fit_in_memory`: raises `MemoryError`
(the error value carries the estimated byte count, which the message
reports divided by `1E6` as MB) when the estimate exceeds the allowance. -/
def check_data_will_fit_in_memory (tableCols : List String) (nrows : Nat)
    (cols : Option (List String)) : Except Nat Unit :=
  let mem_requirement := estimate_memory_requirement tableCols nrows cols
  if MAX_MEM_ALLOWANCE_IN_BYTES < mem_requirement then .error mem_requirement
  else .ok ()

/-- Digits of an integer, as Python `str`/`"{:d}".format` renders it. -/
def intChars (i : Int) : List Char :=
  if i < 0 then '-' :: Nat.toDigits 10 i.natAbs else Nat.toDigits 10 i.toNat

/-- A `join_key` argument: Python lets both strings and ints through
(`str(arg)` stringifies). -/
inductive Seg where
  | str (s : List Char) : Seg
  | int (n : Int) : Seg

/-- `str(arg)` for a segment. -/
def Seg.toChars : Seg → List Char
  | .str s => s
  | .int n => intChars n

/-- Python `s.strip(c)`: remove every leading and trailing occurrence of `c`. -/
def pyStrip (c : Char) (l : List Char) : List Char :=
  ((l.dropWhile (· = c)).reverse.dropWhile (· = c)).reverse

/-- `join_key(*args)` from the source, on Python strings as `List Char`. -/
def join_key (args : List Seg) : List Char :=
  let key := args.foldl (fun key arg =>
    let arg_stripped := pyStrip '/' arg.toChars
    if arg_stripped ≠ [] then key ++ arg_stripped ++ ['/'] else key) ['/']
  if 1 < key.length then key.dropLast else key

/-- Python `s.split(c)`: split at every occurrence of `c`, keeping empty
pieces; the empty string splits to one empty piece. -/
def pySplit (sep : Char) : List Char → List (List Char)
  | [] => [[]]
  | c :: rest =>
    if c = sep then [] :: pySplit sep rest
    else
      match pySplit sep rest with
      | [] => [[c]]
      | h :: t => (c :: h) :: t

/-- Worker for `pyReplaceDel`; `fuel = l.length` suffices for a non-empty
pattern. -/
def replaceDelAux (pat : List Char) : Nat → List Char → List Char
  | _, [] => []
  | 0, l => l
  | fuel+1, c :: rest =>
    if pat.isPrefixOf (c :: rest) ∧ pat ≠ [] then
      replaceDelAux pat fuel ((c :: rest).drop pat.length)
    else c :: replaceDelAux pat fuel rest

/-- Python `s.replace(pat, "")`: delete every (left-to-right,
non-overlapping) occurrence of `pat`. -/
def pyReplaceDel (pat : List Char) (l : List Char) : List Char :=
  replaceDelAux pat l.length l

/-- Value of a non-empty all-digit string. -/
def digitsVal (l : List Char) : Option Nat :=
  if l ≠ [] ∧ l.all Char.isDigit then
    some (l.foldl (fun a c => a * 10 + (c.toNat - '0'.toNat)) 0)
  else none

/-- Python `int(s)` on the strings in scope: an optional sign followed by
digits (whitespace and underscore forms do not occur in keys). -/
def pyInt (l : List Char) : Option Int :=
  match l with
  | '-' :: rest => (digitsVal rest).map (fun n => -(n : Int))
  | '+' :: rest => (digitsVal rest).map (fun n => (n : Int))
  | _ => (digitsVal l).map (fun n => (n : Int))

/-- `nilmtk.datastore.Key`: building id, optional utility, optional meter. -/
structure Key where
  building : Int
  utility : Option (List Char)
  meter : Option Int
deriving DecidableEq

/-- Error classes of the spec's taxonomy: `formatError` covers the
`assert ...startswith...` failures and the `int()` `ValueError`s of
`Key.__init__`; `validationError` covers the `Key._check` assertion
failures. -/
inductive KeyErr where
  | formatError : KeyErr
  | validationError : KeyErr
deriving DecidableEq

/-- `Key._check`: building must be at least 1, and the meter, when present,
at least 1. -/
def Key.checkV (k : Key) : Except KeyErr Unit :=
  if 1 ≤ k.building then
    match k.meter with
    | none => .ok ()
    | some m => if 1 ≤ m then .ok () else .error .validationError
  else .error .validationError

/-- Body of `Key.__init__` on a string, before the final `self._check()`:
strip slashes, split on `/`, require the `building` token, parse the
building id, take `split[1]` as utility when present, and parse a meter
only when the split has exactly three segments. -/
def Key.parseRaw (s : List Char) : Except KeyErr Key :=
  match pySplit '/' (pyStrip '/' s) with
  | [] => .error .formatError
  | first :: rest =>
    if ("building".toList).isPrefixOf first then
      match pyInt (pyReplaceDel "building".toList first) with
      | none => .error .formatError
      | some b =>
        let utility := rest.head?
        match rest with
        | [_, m3] =>
          if ("meter".toList).isPrefixOf m3 then
            match pyInt (pyReplaceDel "meter".toList m3) with
            | none => .error .formatError
            | some m => .ok ⟨b, utility, some m⟩
          else .error .formatError
        | _ => .ok ⟨b, utility, none⟩
    else .error .formatError

/-- `Key.__init__` on a string: parse, then `self._check()`. -/
def Key.ofString (s : List Char) : Except KeyErr Key :=
  (Key.parseRaw s).bind (fun k => (Key.checkV k).map (fun _ => k))

/-- `Key.__repr__`: `self._check()` then `/building<B>`, with
`/elec/meter<M>` appended whenever a meter is set — the stored utility is
never consulted. -/
def Key.render (k : Key) : Except KeyErr (List Char) :=
  (Key.checkV k).map (fun _ =>
    let s := "/building".toList ++ intChars k.building
    match k.meter with
    | some m => s ++ "/elec/meter".toList ++ intChars m
    | none => s)

/-- Whenever a chunk's look-ahead is non-empty, the chunk has rows and the
look-ahead's first row index lies strictly after the chunk's last row
index. -/
def lookAheadFirstAfterRows (c : Chunk α) : Prop :=
  match c.look_ahead.head?, c.rows.getLast? with
  | some a, some r => r.1 < a.1
  | some _, none => False
  | none, _ => True

/-- A three-row table used by the concrete instances below. -/
def tableA : List (Row Unit) := [(0, ()), (5, ()), (15, ())]

/-- Claim C5: the source's `HDFDataStore.open` closes the underlying store
handle rather than reopening it — it has exactly the same effect on the
store state as `HDFDataStore.close`. -/
theorem openStore_eq_closeStore :
    (∀ s : HDFDataStoreState, s.openStore = s.closeStore) ∧
    (∀ s : HDFDataStoreState, s.openStore.storeOpen = false) :=
  ⟨fun _ => rfl, fun _ => rfl⟩

/-- Claim C6: `_check_data_will_fit_in_memory` raises exactly when the
estimate exceeds the allowance of `10 ^ 9` bytes (equality passes), the
error carrying the estimated byte count that the message reports in MB. -/
theorem check_data_fit_boundary (tableCols : List String) (nrows : Nat)
    (cols : Option (List String)) :
    (MAX_MEM_ALLOWANCE_IN_BYTES < estimate_memory_requirement tableCols nrows cols →
      check_data_will_fit_in_memory tableCols nrows cols =
        .error (estimate_memory_requirement tableCols nrows cols)) ∧
    (estimate_memory_requirement tableCols nrows cols ≤ MAX_MEM_ALLOWANCE_IN_BYTES →
      check_data_will_fit_in_memory tableCols nrows cols = .ok ()) := by
  constructor
  · intro h
    simp [check_data_will_fit_in_memory, h]
  · intro h
    simp [check_data_will_fit_in_memory, Nat.not_lt.mpr h]

theorem check_data_fit_boundary_witness :
    check_data_will_fit_in_memory [] 125000001 (some ["index"]) = .error 1000000008 ∧
    check_data_will_fit_in_memory [] 125000000 (some ["index"]) = .ok () :=
  ⟨((check_data_fit_boundary [] 125000001 (some ["index"])).1 (by decide)).trans (by decide),
   (check_data_fit_boundary [] 125000000 (some ["index"])).2 (by decide)⟩

/-- Claim C7: `_estimate_memory_requirement` returns
`nrows * ncols * 4 + nrows * 8`, except that `cols == ["index"]` gets only
the index term; in particular 1000 rows of two columns cost 16000 bytes and
1000 index-only rows cost 8000 bytes. -/
theorem estimate_memory_formula :
    (∀ (tableCols : List String) (nrows : Nat) (cols : List String), cols ≠ [] →
      estimate_memory_requirement tableCols nrows (some cols) =
        if cols = ["index"] then nrows * 8 else nrows * cols.length * 4 + nrows * 8) ∧
    estimate_memory_requirement [] 1000 (some ["a", "b"]) = 16000 ∧
    estimate_memory_requirement [] 1000 (some ["index"]) = 8000 :=
  ⟨fun _ _ _ _ => rfl, by decide, by decide⟩

theorem estimate_memory_formula_witness :
    estimate_memory_requirement [] 1000 (some ["a", "b"]) =
      (if ["a", "b"] = ["index"] then 1000 * 8
       else 1000 * (["a", "b"] : List String).length * 4 + 1000 * 8) :=
  estimate_memory_formula.1 [] 1000 ["a", "b"] (by decide)

/-- Claim C10: `Key.__repr__` emits the literal `elec` segment whenever a
meter is set, ignoring the stored utility entirely; parsing
`building1/gas/meter2` and rendering yields `/building1/elec/meter2`. -/
theorem key_render_rewrites_utility :
    (∀ (k : Key) (u : Option (List Char)),
      Key.render ⟨k.building, u, k.meter⟩ = Key.render k) ∧
    Key.ofString ("building1/gas/meter2".toList) =
      .ok ⟨1, some ("gas".toList), some 2⟩ ∧
    Key.render ⟨1, some ("gas".toList), some 2⟩ =
      .ok ("/building1/elec/meter2".toList) ∧
    "/building1/elec/meter2".toList ≠ "/building1/gas/meter2".toList :=
  ⟨fun _ _ => rfl, by decide, by decide, by decide⟩

/-- Claim C9: `Key` parsing fails with a format error when the first
segment does not carry the `building` token or when a `building`/`meter`
numeric suffix is not an integer, and fails with a validation error when
the parsed building id, or a present meter id, is below 1. -/
theorem key_parse_error_classes :
    (∀ (s first : List Char) (rest : List (List Char)),
        pySplit '/' (pyStrip '/' s) = first :: rest →
        (("building".toList).isPrefixOf first = false →
          Key.ofString s = .error .formatError) ∧
        (pyInt (pyReplaceDel "building".toList first) = none →
          Key.ofString s = .error .formatError) ∧
        (∀ u m3, rest = [u, m3] →
          ("meter".toList).isPrefixOf m3 = true →
          pyInt (pyReplaceDel "meter".toList m3) = none →
          Key.ofString s = .error .formatError)) ∧
    (∀ (s : List Char) (k : Key), Key.parseRaw s = .ok k →
        (k.building < 1 ∨ (∃ m, k.meter = some m ∧ m < 1)) →
        Key.ofString s = .error .validationError) ∧
    Key.ofString ("bldg1".toList) = .error .formatError ∧
    Key.ofString ("building0/elec/meter1".toList) = .error .validationError := by
  refine ⟨?_, ?_, by decide, by decide⟩
  · intro s first rest hsplit
    refine ⟨?_, ?_, ?_⟩
    · intro hpf
      simp_all [Key.ofString, Key.parseRaw, Except.bind, Except.map]
    · intro hpy
      by_cases hpf : ("building".toList).isPrefixOf first = true
      · simp_all [Key.ofString, Key.parseRaw, Except.bind, Except.map]
      · simp_all [Key.ofString, Key.parseRaw, Except.bind, Except.map]
    · intro u m3 hrest hm hpy
      subst hrest
      by_cases hpf : ("building".toList).isPrefixOf first = true
      · cases hpyb : pyInt (pyReplaceDel "building".toList first) with
        | none => simp_all [Key.ofString, Key.parseRaw, Except.bind, Except.map]
        | some b => simp_all [Key.ofString, Key.parseRaw, Except.bind, Except.map]
      · simp_all [Key.ofString, Key.parseRaw, Except.bind, Except.map]
  · intro s k hraw hbad
    have hch : Key.checkV k = .error .validationError := by
      unfold Key.checkV
      rcases hbad with hb | ⟨m, hm, hmlt⟩
      · simp [Int.not_le.mpr hb]
      · by_cases hb1 : 1 ≤ k.building
        · simp [hb1, hm, Int.not_le.mpr hmlt]
        · simp [hb1]
    simp [Key.ofString, hraw, hch, Except.bind, Except.map]

theorem key_parse_error_witness :
    Key.ofString ("house1".toList) = .error .formatError ∧
    Key.ofString ("buildingX".toList) = .error .formatError ∧
    Key.ofString ("building2/elec/meterX".toList) = .error .formatError ∧
    Key.ofString ("building3/elec/meter0".toList) = .error .validationError :=
  ⟨((key_parse_error_classes.1 "house1".toList "house1".toList [] (by decide)).1 (by decide)),
   ((key_parse_error_classes.1 "buildingX".toList "buildingX".toList [] (by decide)).2.1 (by decide)),
   ((key_parse_error_classes.1 "building2/elec/meterX".toList "building2".toList
      ["elec".toList, "meterX".toList] (by decide)).2.2 "elec".toList "meterX".toList rfl
      (by decide) (by decide)),
   (key_parse_error_classes.2.1 "building3/elec/meter0".toList
      ⟨3, some ("elec".toList), some 0⟩ (by decide) (Or.inr ⟨0, rfl, by decide⟩))⟩

/-- The fold of `join_key` accumulates each non-empty stripped segment
followed by a slash. -/
theorem join_key_foldl (args : List Seg) (k : List Char) :
    args.foldl (fun key arg =>
      let arg_stripped := pyStrip '/' arg.toChars
      if arg_stripped ≠ [] then key ++ arg_stripped ++ ['/'] else key) k =
    k ++ (((args.map (fun a => pyStrip '/' a.toChars)).filter
      (fun s => !s.isEmpty)).map (fun s => s ++ ['/'])).flatten := by
  induction args generalizing k with
  | nil => simp
  | cons a args ih =>
    simp only [List.foldl_cons, List.map_cons]
    by_cases h : pyStrip '/' a.toChars = []
    · simp only [h]
      rw [ih]
      simp
    · rw [ih]
      simp [h, List.filter_cons, List.isEmpty_iff]

/-- Dropping the final slash from slash-terminated parts joins the parts
with slashes. -/
theorem dropLast_flatten_slash (parts : List (List Char)) (hp : parts ≠ []) :
    ((parts.map (fun s => s ++ ['/'])).flatten).dropLast =
      List.intercalate ['/'] parts := by
  induction parts with
  | nil => simp at hp
  | cons p rest ih =>
    cases rest with
    | nil => simp [List.intercalate]
    | cons q t =>
      have hne : (((q :: t).map (fun s => s ++ ['/'])).flatten) ≠ [] := by
        simp
      rw [List.map_cons, List.flatten_cons,
        List.dropLast_append_of_ne_nil (p ++ ['/']) hne, ih (by simp)]
      simp [List.intercalate, List.intersperse_cons_cons]

/-- Claim C8: `join_key` returns `/` followed by the non-empty stripped
segments joined with `/`, with no trailing slash; zero segments or
only-empty segments give `/`. -/
theorem join_key_spec :
    (∀ args : List Seg,
      join_key args =
        '/' :: List.intercalate ['/']
          ((args.map (fun a => pyStrip '/' a.toChars)).filter (fun s => !s.isEmpty))) ∧
    join_key [.str "building1".toList, .str "elec".toList, .str "meter1".toList] =
      "/building1/elec/meter1".toList ∧
    join_key [.str "/".toList] = "/".toList ∧
    join_key [.str "".toList] = "/".toList ∧
    join_key [] = "/".toList := by
  refine ⟨?_, by decide, by decide, by decide, by decide⟩
  intro args
  unfold join_key
  rw [join_key_foldl]
  cases hp : (args.map (fun a => pyStrip '/' a.toChars)).filter (fun s => !s.isEmpty) with
  | nil => simp [List.intercalate]
  | cons p t =>
    have hfl : ((((p :: t)).map (fun s => s ++ ['/'])).flatten) ≠ [] := by simp
    have hlen : 1 < (['/'] ++ (((p :: t)).map (fun s => s ++ ['/'])).flatten).length := by
      have := List.length_pos.mpr hfl
      simp only [List.length_append, List.length_cons, List.length_nil]
      omega
    rw [if_pos hlen, List.dropLast_append_of_ne_nil ['/'] hfl,
      dropLast_flatten_slash (p :: t) (by simp)]
    rfl

theorem head?_some_mem {l : List β} {x : β} (h : l.head? = some x) : x ∈ l := by
  cases l with
  | nil => simp at h
  | cons a t =>
    simp at h
    subst h
    exact List.mem_cons_self _ _

theorem mem_chunksOfAux_sublist (k : Nat) :
    ∀ (fuel : Nat) (l g : List β), g ∈ chunksOfAux k fuel l → g.Sublist l := by
  intro fuel
  induction fuel with
  | zero =>
    intro l g hg
    cases l with
    | nil => simp [chunksOfAux] at hg
    | cons x xs =>
      have he : chunksOfAux k 0 (x :: xs) = [x :: xs] := rfl
      rw [he] at hg
      simp at hg
      subst hg
      exact List.Sublist.refl _
  | succ n ih =>
    intro l g hg
    cases l with
    | nil => simp [chunksOfAux] at hg
    | cons x xs =>
      have he : chunksOfAux k (n+1) (x :: xs) =
          (x :: xs).take k :: chunksOfAux k n ((x :: xs).drop k) := rfl
      rw [he] at hg
      rcases List.mem_cons.mp hg with h | h
      · subst h
        exact List.take_sublist _ _
      · exact (ih _ _ h).trans (List.drop_sublist _ _)

theorem mem_chunksOf_sublist {k : Nat} {l g : List β} (hg : g ∈ chunksOf k l) :
    g.Sublist l :=
  mem_chunksOfAux_sublist k l.length l g hg

theorem mem_loadPeriod {w p : TimeFrame} {table : List (Row α)} {n k : Nat}
    {c : Chunk α} (hc : c ∈ loadPeriod w table n k p) :
    c = enrich table n [] ∨
    ∃ g, g ∈ chunksOf k (table.filter (fun r => (w.intersect p).contains r.1)) ∧
      c = enrich table n g := by
  simp only [loadPeriod] at hc
  split at hc
  · left
    simpa using hc
  · right
    rcases List.mem_map.mp hc with ⟨g, hg, rfl⟩
    exact ⟨g, hg, rfl⟩

theorem mem_load {w : TimeFrame} {ps : Option (List TimeFrame)}
    {table : List (Row α)} {n k : Nat} {c : Chunk α}
    (hc : c ∈ load w table n k ps) :
    ∃ p ∈ ps.getD [TimeFrame.blank], c ∈ loadPeriod w table n k p :=
  List.mem_flatMap.mp hc

theorem exists_enrich_of_mem_load {w : TimeFrame} {ps : Option (List TimeFrame)}
    {table : List (Row α)} {n k : Nat} {c : Chunk α}
    (hc : c ∈ load w table n k ps) :
    ∃ data, c = enrich table n data := by
  rcases mem_load hc with ⟨p, _, hlp⟩
  rcases mem_loadPeriod hlp with h | ⟨g, _, h⟩
  · exact ⟨[], h⟩
  · exact ⟨g, h⟩

theorem lookAheadFor_length_le (table : List (Row α)) (n : Nat)
    (data : List (Row α)) : (lookAheadFor table n data).length ≤ n := by
  cases hl : data.getLast? with
  | none => simp [lookAheadFor, hl]
  | some last =>
    cases hc : (lookAheadCoords table last.1).head? with
    | none => simp [lookAheadFor, hl, hc]
    | some p =>
      simp only [lookAheadFor, hl, hc]
      rw [List.length_take]
      omega

theorem lookAheadFor_first_after (table : List (Row α)) (n : Nat)
    (data : List (Row α)) : lookAheadFirstAfterRows (enrich table n data) := by
  unfold lookAheadFirstAfterRows enrich
  simp only
  cases hl : data.getLast? with
  | none => simp [lookAheadFor, hl]
  | some last =>
    cases hc : (lookAheadCoords table last.1).head? with
    | none => simp [lookAheadFor, hl, hc]
    | some p =>
      obtain ⟨r, hr_get, hr_gt⟩ : ∃ r, table[p]? = some r ∧ last.1 < r.1 := by
        have hc2 := hc
        unfold lookAheadCoords at hc2
        rw [List.head?_map] at hc2
        cases hfh : (table.enum.filter (fun pr => decide (last.1 < pr.2.1))).head? with
        | none => rw [hfh] at hc2; simp at hc2
        | some pr =>
          rw [hfh] at hc2
          simp at hc2
          obtain ⟨i, x⟩ := pr
          have hmem := head?_some_mem hfh
          have h1 := List.mem_filter.mp hmem
          have hget := List.mk_mem_enum_iff_getElem?.mp h1.1
          have hlt : last.1 < x.1 := of_decide_eq_true h1.2
          simp only at hc2
          subst hc2
          exact ⟨x, hget, hlt⟩
      cases n with
      | zero => simp [lookAheadFor, hl, hc]
      | succ m =>
        have h0 : (table.drop p).head? = some r := by
          rw [List.head?_eq_getElem?, List.getElem?_drop]
          simpa using hr_get
        have h1 : ((table.drop p).take (m + 1)).head? = some r := by
          cases hdp : table.drop p with
          | nil => rw [hdp] at h0; simp at h0
          | cons y ys =>
            rw [hdp] at h0
            simp at h0
            subst h0
            simp
        simp only [lookAheadFor, hl, hc, h1]
        exact hr_gt

/-- Claim C1: every chunk yielded by `load` has a look-ahead of at most
`n_look_ahead_rows` rows, and a non-empty look-ahead starts at an index
strictly greater than the chunk's last row index (the physically next row
on disk). -/
theorem load_look_ahead_bounded (w : TimeFrame) (table : List (Row α))
    (n k : Nat) (ps : Option (List TimeFrame)) (c : Chunk α)
    (hc : c ∈ load w table n k ps) :
    c.look_ahead.length ≤ n ∧ lookAheadFirstAfterRows c := by
  obtain ⟨data, rfl⟩ := exists_enrich_of_mem_load hc
  exact ⟨lookAheadFor_length_le table n data, lookAheadFor_first_after table n data⟩

theorem load_look_ahead_bounded_witness :
    (⟨[((0 : Int), ()), ((5 : Int), ())], [((15 : Int), ())],
        .tf (some 0) (some 5)⟩ : Chunk Unit).look_ahead.length ≤ 10 ∧
    lookAheadFirstAfterRows
      (⟨[((0 : Int), ()), ((5 : Int), ())], [((15 : Int), ())],
        .tf (some 0) (some 5)⟩ : Chunk Unit) :=
  load_look_ahead_bounded TimeFrame.blank tableA 10 2 none _ (by decide)

theorem contains_intersect_left (w p : TimeFrame) (t : Int)
    (h : (w.intersect p).contains t = true) : w.contains t = true := by
  cases w with
  | empt => simp [TimeFrame.intersect, TimeFrame.contains] at h
  | tf s1 e1 =>
    cases p with
    | empt => simp [TimeFrame.intersect, TimeFrame.contains] at h
    | tf s2 e2 =>
      cases s1 <;> cases s2 <;> cases e1 <;> cases e2 <;>
        simp_all [TimeFrame.intersect, TimeFrame.contains, startMax, stopMin] <;>
        split_ifs at h <;> simp_all

/-- Claim C4 (amended): every row of a chunk's main row set lies inside the
window; the look-ahead rows are read by on-disk position without a window
predicate and may fall outside it. -/
theorem load_rows_inside_window (w : TimeFrame) (table : List (Row α))
    (n k : Nat) (ps : Option (List TimeFrame)) (c : Chunk α)
    (hc : c ∈ load w table n k ps) :
    ∀ r ∈ c.rows, w.contains r.1 = true := by
  rcases mem_load hc with ⟨p, _, hlp⟩
  rcases mem_loadPeriod hlp with h | ⟨g, hg, h⟩
  · subst h
    intro r hr
    simp [enrich] at hr
  · subst h
    intro r hr
    have hrg : r ∈ g := hr
    have hrf := (mem_chunksOf_sublist hg).subset hrg
    exact contains_intersect_left w p r.1 (List.mem_filter.mp hrf).2

/-- Claim C4 counterexample: with window `[0, 10)` the single yielded chunk
has look-ahead row index 15, which is outside the window. -/
theorem load_rows_inside_window_cex :
    load (.tf (some 0) (some 10)) tableA 10 100 none =
      [⟨[(0, ()), (5, ())], [(15, ())], .tf (some 0) (some 5)⟩] ∧
    TimeFrame.contains (.tf (some 0) (some 10)) 15 = false := by
  constructor
  · decide
  · decide

theorem load_rows_inside_window_witness :
    TimeFrame.contains (.tf (some 0) (some 10)) 0 = true :=
  load_rows_inside_window (.tf (some 0) (some 10)) tableA 10 100 none
    ⟨[(0, ()), (5, ())], [(15, ())], .tf (some 0) (some 5)⟩ (by decide)
    ((0 : Int), ()) (by decide)

theorem getLast?_some_mem {l : List β} {x : β} (h : l.getLast? = some x) :
    x ∈ l := by
  induction l with
  | nil => simp at h
  | cons a t ih =>
    cases t with
    | nil =>
      simp at h
      subst h
      exact List.mem_cons_self _ _
    | cons b t2 =>
      rw [List.getLast?_cons_cons] at h
      exact List.mem_cons_of_mem _ (ih h)

theorem sorted_min?_eq_head? {l : List Int}
    (h : List.Pairwise (· ≤ ·) l) : l.min? = l.head? := by
  induction l with
  | nil => rfl
  | cons x xs ih =>
    rw [List.min?_cons]
    have hp := List.pairwise_cons.mp h
    cases xs with
    | nil => simp
    | cons y ys =>
      have hmin := ih hp.2
      rw [List.head?_cons] at hmin
      rw [hmin]
      simp only [Option.elim, List.head?_cons]
      have hxy : x ≤ y := hp.1 y (List.mem_cons_self _ _)
      simp [min_eq_left hxy]

theorem sorted_max?_eq_getLast? {l : List Int}
    (h : List.Pairwise (· ≤ ·) l) : l.max? = l.getLast? := by
  induction l with
  | nil => rfl
  | cons x xs ih =>
    rw [List.max?_cons]
    have hp := List.pairwise_cons.mp h
    cases xs with
    | nil => simp
    | cons y ys =>
      have hmax := ih hp.2
      rw [List.getLast?_cons_cons]
      cases hgl : (y :: ys).getLast? with
      | none => simp at hgl
      | some b =>
        rw [hgl] at hmax
        rw [hmax]
        simp only [Option.elim]
        have hxb : x ≤ b := hp.1 b (getLast?_some_mem hgl)
        simp [max_eq_right hxb]

theorem chunkTimeframe_sorted {data : List (Row α)}
    (hs : List.Pairwise (fun a b : Row α => a.1 ≤ b.1) data) (hne : data ≠ []) :
    chunkTimeframe data =
      .tf ((data.map Prod.fst).min?) ((data.map Prod.fst).max?) := by
  have hsm : List.Pairwise (· ≤ ·) (data.map Prod.fst) :=
    List.pairwise_map.mpr hs
  rw [sorted_min?_eq_head? hsm, sorted_max?_eq_getLast? hsm,
    List.head?_map, List.getLast?_map]
  cases data with
  | nil => exact absurd rfl hne
  | cons a t =>
    cases hgl : (a :: t).getLast? with
    | none => simp at hgl
    | some b => simp [chunkTimeframe, hgl]

/-- Claim C2 (amended): over a table sorted by index, a non-empty chunk's
timeframe is exactly `[min index, max index]` of its rows; an empty chunk
carries the blank no-argument `TimeFrame()` (both bounds absent), not the
empty interval. -/
theorem load_timeframe_minmax (w : TimeFrame) (table : List (Row α))
    (n k : Nat) (ps : Option (List TimeFrame))
    (hs : List.Pairwise (fun a b : Row α => a.1 ≤ b.1) table) (c : Chunk α)
    (hc : c ∈ load w table n k ps) :
    (c.rows ≠ [] → c.timeframe =
      .tf ((c.rows.map Prod.fst).min?) ((c.rows.map Prod.fst).max?)) ∧
    (c.rows = [] → c.timeframe = TimeFrame.blank) := by
  obtain ⟨data, hsd, rfl⟩ :
      ∃ data, List.Pairwise (fun a b : Row α => a.1 ≤ b.1) data ∧
        c = enrich table n data := by
    rcases mem_load hc with ⟨p, _, hlp⟩
    rcases mem_loadPeriod hlp with h | ⟨g, hg, h⟩
    · exact ⟨[], List.Pairwise.nil, h⟩
    · exact ⟨g, List.Pairwise.sublist
        ((mem_chunksOf_sublist hg).trans (List.filter_sublist _)) hs, h⟩
  constructor
  · intro hne
    exact chunkTimeframe_sorted hsd hne
  · intro he
    have : data = [] := he
    subst this
    rfl

theorem load_timeframe_minmax_witness :
    Chunk.timeframe
        (⟨[((0 : Int), ()), ((5 : Int), ())], [((15 : Int), ())],
          .tf (some 0) (some 5)⟩ : Chunk Unit) =
      .tf ((([((0 : Int), ()), ((5 : Int), ())] : List (Row Unit)).map
          Prod.fst).min?)
        ((([((0 : Int), ()), ((5 : Int), ())] : List (Row Unit)).map
          Prod.fst).max?) :=
  (load_timeframe_minmax TimeFrame.blank tableA 10 2 none (by decide) _
    (by decide)).1 (by decide)

/-- Claim C2 counterexample: a chunk with no rows gets the blank
`TimeFrame()` (no bounds, containing every instant), not the empty
interval. -/
theorem load_timeframe_minmax_cex :
    load (.tf (some 0) (some 1)) tableA 10 100 (some [.tf (some 2) (some 3)]) =
      [⟨[], [], TimeFrame.blank⟩] ∧
    TimeFrame.blank ≠ TimeFrame.empt ∧
    TimeFrame.contains TimeFrame.blank 42 = true := by
  refine ⟨by decide, by decide, by decide⟩

/-- Claim C3 (amended): a period whose intersection with the window is
empty yields exactly one chunk, with zero rows, empty look-ahead, and the
blank no-argument `TimeFrame()` as timeframe; no exception path exists. -/
theorem loadPeriod_empty_intersection (w p : TimeFrame) (table : List (Row α))
    (n k : Nat) (h : (w.intersect p).isEmpty = true) :
    loadPeriod w table n k p = [⟨[], [], TimeFrame.blank⟩] := by
  simp only [loadPeriod, h]
  rfl

theorem loadPeriod_empty_intersection_witness :
    loadPeriod (.tf (some 0) (some 1)) tableA 3 50 (.tf (some 7) (some 9)) =
      [⟨[], [], TimeFrame.blank⟩] :=
  loadPeriod_empty_intersection (.tf (some 0) (some 1)) (.tf (some 7) (some 9))
    tableA 3 50 (by decide)

/-- Claim C3 counterexample: the one chunk yielded for an
empty-intersection period carries the blank `TimeFrame()`, which is not the
empty interval. -/
theorem loadPeriod_empty_intersection_cex :
    (TimeFrame.intersect (.tf (some 0) (some 1)) (.tf (some 5) (some 6))).isEmpty
        = true ∧
    loadPeriod (.tf (some 0) (some 1)) tableA 10 100 (.tf (some 5) (some 6)) =
      [⟨[], [], TimeFrame.blank⟩] ∧
    TimeFrame.blank ≠ TimeFrame.empt ∧
    TimeFrame.isEmpty TimeFrame.blank = false := by
  refine ⟨by decide, by decide, by decide, by decide⟩
